import Mathlib

/-!
Verification of the retrieval-and-orchestration core of the Multi_Agent_RAG_System
repository: a shallow embedding, in Lean 4, of

  * the query classifier (src/agents/orchestrator.py, classify_query),
  * the windowing and two-stage ranking pipeline (src/agents/rag.py),
  * evidence grouping (_to_evidence), conflict detection (_detect_conflicts),
  * and the agent fan-out of orchestrate (stages 3 to 5).

Python strings are modelled as List Char.  The regular-expression subset used by
the classifier's pattern tables (single characters, word boundaries, the
whitespace class, and the dot-star wildcard) is given an executable matcher, so
that concrete messages evaluate inside the kernel.  External machine-learned
scorers (bi-encoder, TF-IDF, cross-encoder) are opaque scoring functions into
the rationals, and their availability (try/except in the source) is a Boolean
parameter.  JSON-like dynamic values are modelled by the JValue type, and a
Python runtime error inside conflict detection is modelled by Option.none.
-/

namespace MARS

/-! Character classes of the pattern tables: a literal character, the
whitespace class (backslash-s), and the dot wildcard. -/

inductive Cls where
  | lit (c : Char)
  | ws
  | dot
deriving DecidableEq

/-- Membership of a character in a class.  Python's backslash-s covers space,
tab, newline, carriage return, vertical tab and form feed; the dot matches
anything but a newline. -/
def Cls.mem : Cls → Char → Bool
  | .lit c, d => d == c
  | .ws, d => d == ' ' || d == '\t' || d == '\n' || d == '\r' || d == Char.ofNat 11 || d == Char.ofNat 12
  | .dot, d => d != '\n'

/-- One element of a pattern: a single class occurrence, a starred class
(zero or more), or a word-boundary assertion (backslash-b). -/
inductive RE where
  | one (cls : Cls)
  | star (cls : Cls)
  | bnd
deriving DecidableEq

/-- Word characters for the boundary assertion (ASCII view of regex
backslash-w: alphanumerics and underscore). -/
def isWordChar (c : Char) : Bool := c.isAlphanum || c == '_'

def isWordOpt : Option Char → Bool
  | none => false
  | some c => isWordChar c

/-- Anchored matcher: does the pattern match a prefix of s, given the character
just before the current position (none at the start of the string)?  The fuel
argument only forces termination; every call below supplies enough fuel
(pattern length + string length + 1), since each step consumes one element of
the pattern or of the string. -/
def matchHere : Nat → List RE → Option Char → List Char → Bool
  | 0, _, _, _ => false
  | _ + 1, [], _, _ => true
  | f + 1, .one cls :: ps, _, c :: rest => cls.mem c && matchHere f ps (some c) rest
  | _ + 1, .one _ :: _, _, [] => false
  | f + 1, .bnd :: ps, prev, s =>
      (isWordOpt prev != isWordOpt s.head?) && matchHere f ps prev s
  | f + 1, .star cls :: ps, prev, s =>
      matchHere f ps prev s ||
        match s with
        | [] => false
        | c :: rest => cls.mem c && matchHere f (.star cls :: ps) (some c) rest

/-- Unanchored search from every position, tracking the previous character for
boundary assertions.  This is re.search for the pattern subset above. -/
def matchFrom (p : List RE) : Option Char → List Char → Bool
  | prev, [] => matchHere (p.length + 1) p prev []
  | prev, c :: rest =>
      matchHere (p.length + (c :: rest).length + 1) p prev (c :: rest) ||
        matchFrom p (some c) rest

def reSearch (p : List RE) (s : List Char) : Bool := matchFrom p none s

/-- Literal characters of a word, as pattern elements. -/
def lits (w : String) : List RE := w.toList.map (fun c => RE.one (Cls.lit c))

/-- Pattern of shape backslash-b word backslash-b, the shape of almost every
entry of the classifier's tables. -/
def wp (w : String) : List RE := RE.bnd :: lits w ++ [RE.bnd]

/-- message.lower() of the source, as a character list. -/
def lowerChars (s : String) : List Char := s.toList.map Char.toLower

/-- The _TRAVEL_PATTERNS table of src/agents/orchestrator.py, in source
order.  The two non-word entries are from-dot-star-to and
plan-whitespace-a-whitespace-trip. -/
def _TRAVEL_PATTERNS : List (List RE) :=
  [wp "trip", wp "travel", wp "flight", wp "fly", wp "train",
   wp "bus", wp "route", wp "hotel", wp "stay", wp "book",
   wp "itinerary", wp "visit", wp "tour", wp "vacation",
   wp "from" ++ [RE.star Cls.dot] ++ wp "to", wp "destination", wp "hostel", wp "resort",
   wp "airbnb", wp "accommodation",
   RE.bnd :: lits "plan" ++ [RE.one Cls.ws, RE.star Cls.ws] ++ lits "a" ++
     [RE.one Cls.ws, RE.star Cls.ws] ++ lits "trip" ++ [RE.bnd]]

/-- The _HEALTH_PATTERNS table, in source order; blood-pressure carries an
optional whitespace run between the two words. -/
def _HEALTH_PATTERNS : List (List RE) :=
  [wp "doctor", wp "health", wp "medical", wp "disease",
   wp "symptom", wp "treatment", wp "diagnos", wp "specialist",
   wp "hospital", wp "pain", wp "fever", wp "cough",
   wp "heart", wp "diabet", wp "cancer", wp "skin",
   wp "eye", wp "dental", wp "mental", wp "depression",
   wp "anxiety", wp "wellness", wp "nutrition", wp "diet",
   wp "surger", wp "therapy", wp "infection", wp "allerg",
   wp "bone", wp "joint", wp "headache", wp "migraine",
   RE.bnd :: lits "blood" ++ [RE.star Cls.ws] ++ lits "pressure" ++ [RE.bnd],
   wp "cholesterol", wp "lung", wp "kidney"]

/-- The _FINANCE_PATTERNS table, in source order. -/
def _FINANCE_PATTERNS : List (List RE) :=
  [wp "budget", wp "finance", wp "invest", wp "saving",
   wp "money", wp "cost", wp "afford", wp "expense",
   wp "tax", wp "loan", wp "insurance", wp "retirement"]

/-- The pure post-scoring part of classify_query: append travel, then health,
then financial for each score of at least 1, couple financial to travel, and
fall back to all three agents when nothing matched. -/
def assembleAgents (travel_score health_score finance_score : Nat) : List String :=
  let a0 := (if 1 ≤ travel_score then ["travel"] else []) ++
            (if 1 ≤ health_score then ["health"] else []) ++
            (if 1 ≤ finance_score then ["financial"] else [])
  let a1 := if "travel" ∈ a0 ∧ "financial" ∉ a0 then a0 ++ ["financial"] else a0
  if a1 = [] then ["travel", "financial", "health"] else a1

/-- classify_query of src/agents/orchestrator.py: lower-case the message, count
for each topic how many of its patterns match, and assemble the agent list. -/
def classify_query (message : String) : List String :=
  let msg := lowerChars message
  assembleAgents (_TRAVEL_PATTERNS.countP (fun p => reSearch p msg))
    (_HEALTH_PATTERNS.countP (fun p => reSearch p msg))
    (_FINANCE_PATTERNS.countP (fun p => reSearch p msg))

/-! Windowing of src/agents/rag.py (_chunk_text). -/

/-- Whitespace characters stripped by Python's str.strip (ASCII part). -/
def isPySpace (c : Char) : Bool :=
  c == ' ' || c == '\t' || c == '\n' || c == '\r' || c == Char.ofNat 11 || c == Char.ofNat 12

/-- Accumulator-based text.splitlines(): split at a newline, a carriage return,
or a carriage-return-newline pair; a trailing fragment is emitted only when
non-empty (Python emits no final empty line). -/
def splitlinesAux : List Char → List Char → List (List Char)
  | acc, [] => if acc.isEmpty then [] else [acc.reverse]
  | acc, '\r' :: '\n' :: rest => acc.reverse :: splitlinesAux [] rest
  | acc, '\r' :: rest => acc.reverse :: splitlinesAux [] rest
  | acc, '\n' :: rest => acc.reverse :: splitlinesAux [] rest
  | acc, c :: rest => splitlinesAux (c :: acc) rest

def splitlines (s : List Char) : List (List Char) := splitlinesAux [] s

/-- line.strip(): drop whitespace from both ends of a line. -/
def stripChars (l : List Char) : List Char :=
  ((l.dropWhile isPySpace).reverse.dropWhile isPySpace).reverse

/-- The first line of _chunk_text: join with a newline the stripped lines that
are non-empty after stripping. -/
def normalizeText (s : List Char) : List Char :=
  List.intercalate ['\n'] (((splitlines s).map stripChars).filter (fun l => !l.isEmpty))

/-- The while loop of _chunk_text: successive windows of 900 characters, the
last one possibly shorter.  The fuel argument (the length of the list at the
outer call) only forces termination: each step consumes at least one
character because the window size 900 is positive. -/
def chunksOfAux : Nat → List Char → List (List Char)
  | 0, _ => []
  | _ + 1, [] => []
  | f + 1, c :: cs => (c :: cs).take 900 :: chunksOfAux f ((c :: cs).drop 900)

/-- The function _chunk_text of src/agents/rag.py with its default max_chars = 900:
normalize, then window. -/
def _chunk_text (text : List Char) : List (List Char) :=
  chunksOfAux (normalizeText text).length (normalizeText text)

/-- Normalization as claim C3 words it (collapse runs of whitespace, drop blank
lines).  Modelled from the spec, for comparison against the code: drop the
lines that are blank after stripping, join the rest, then replace every maximal
run of whitespace characters by a single space. -/
def collapseRuns : List Char → List Char
  | [] => []
  | [c] => if isPySpace c then [' '] else [c]
  | c :: d :: rest =>
      if isPySpace c && isPySpace d then collapseRuns (d :: rest)
      else (if isPySpace c then ' ' else c) :: collapseRuns (d :: rest)

/-- Modelled from the spec: the whole claimed normalization of C3, to be
compared with normalizeText (which the code actually performs). -/
def collapseWsSpec (text : List Char) : List Char :=
  collapseRuns (List.intercalate ['\n']
    (((splitlines text).map stripChars).filter (fun l => !l.isEmpty)))

/-! Two-stage ranking of src/agents/rag.py. -/

/-- Document of the spec's data model: the url, title and text fields read by
rank_chunks from each fetched page dictionary. -/
structure Document where
  url : String
  title : Option String
  text : List Char
deriving DecidableEq

/-- RankedChunk of src/agents/rag.py; the float score is modelled as a
rational. -/
structure RankedChunk where
  url : String
  title : Option String
  text : List Char
  score : ℚ
deriving DecidableEq

/-- Ordering used by the two sorted(..., key=score, reverse=True) calls:
descending score. -/
def scoreGe (a b : RankedChunk) : Prop := b.score ≤ a.score

instance : DecidableRel scoreGe := fun a b => inferInstanceAs (Decidable (b.score ≤ a.score))

instance : IsTotal RankedChunk scoreGe := ⟨fun a b => le_total b.score a.score⟩

instance : IsTrans RankedChunk scoreGe := ⟨fun _ _ _ hab hbc => le_trans hbc hab⟩

/-- Python's sorted is a stable sort; insertion sort is the stable sort of
Mathlib's sorting library. -/
def sortByScoreDesc (l : List RankedChunk) : List RankedChunk :=
  List.insertionSort scoreGe l

/-- Stage 1, _bi_encoder_rank: score every (url, title, text) window with the bi-encoder
(an opaque scoring function over the window text, the query being fixed), sort
descending, truncate. -/
def _bi_encoder_rank (score : List Char → ℚ)
    (chunks : List (String × Option String × List Char)) (top_k : Nat) : List RankedChunk :=
  (sortByScoreDesc (chunks.map (fun c => ⟨c.1, c.2.1, c.2.2, score c.2.2⟩))).take top_k

/-- Fallback _tfidf_rank, the lexical fallback of stage 1: same shape with its own
opaque scoring function. -/
def _tfidf_rank (score : List Char → ℚ)
    (chunks : List (String × Option String × List Char)) (top_k : Nat) : List RankedChunk :=
  (sortByScoreDesc (chunks.map (fun c => ⟨c.1, c.2.1, c.2.2, score c.2.2⟩))).take top_k

/-- Stage 2, _cross_encoder_rerank: when the cross-encoder is available (cross_ok), its
scores replace the candidates' scores and the list is re-sorted and truncated;
the except-branch of the source keeps the incoming order and truncates.  The
function is total: no exception leaves the rerank step. -/
def _cross_encoder_rerank (score : List Char → ℚ) (cross_ok : Bool)
    (candidates : List RankedChunk) (top_k : Nat) : List RankedChunk :=
  if cross_ok then
    (sortByScoreDesc (candidates.map (fun c => { c with score := score c.text }))).take top_k
  else
    candidates.take top_k

/-- rank_chunks of src/agents/rag.py: window every document, return [] when no
window exists, otherwise stage-1 retrieval (bi-encoder when available, else
TF-IDF) over min(len(chunks), top_k * 3) candidates, then the stage-2
rerank. -/
def rank_chunks (bi_ok cross_ok : Bool) (biScore tfScore crossScore : List Char → ℚ)
    (docs : List Document) (top_k : Nat) : List RankedChunk :=
  let chunks := docs.flatMap (fun d => (_chunk_text d.text).map (fun ch => (d.url, d.title, ch)))
  if chunks.isEmpty then []
  else
    let candidates :=
      if bi_ok then _bi_encoder_rank biScore chunks (min chunks.length (top_k * 3))
      else _tfidf_rank tfScore chunks (min chunks.length (top_k * 3))
    _cross_encoder_rerank crossScore cross_ok candidates top_k

/-! Evidence grouping of src/agents/orchestrator.py (_to_evidence). -/

/-- EvidenceItem of the data model: a url with its title and up to six
snippets. -/
structure EvidenceItem where
  url : String
  title : Option String
  snippets : List (List Char)
deriving DecidableEq

/-- One step of the _to_evidence loop: by_url.setdefault(ch.url, new item),
then append the text when fewer than 6 snippets are stored.  The accumulator
list carries the items in dict insertion order; its urls are pairwise distinct,
so the conditional map updates exactly the stored item. -/
def insertChunk (acc : List EvidenceItem) (ch : RankedChunk) : List EvidenceItem :=
  if acc.any (fun it => it.url == ch.url) then
    acc.map (fun it =>
      if it.url = ch.url ∧ it.snippets.length < 6
      then { it with snippets := it.snippets ++ [ch.text] } else it)
  else
    acc ++ [{ url := ch.url, title := ch.title, snippets := [ch.text] }]

def toEvidenceAux (acc : List EvidenceItem) : List RankedChunk → List EvidenceItem
  | [] => acc
  | ch :: rest => toEvidenceAux (insertChunk acc ch) rest

/-- The function _to_evidence of src/agents/orchestrator.py. -/
def _to_evidence (chunks : List RankedChunk) : List EvidenceItem :=
  toEvidenceAux [] chunks

/-! Conflict detection of src/agents/orchestrator.py (_detect_conflicts). -/

/-- JSON-like dynamic values held in an agent's result dictionary. -/
inductive JValue where
  | null
  | jbool (b : Bool)
  | num (q : ℚ)
  | str (s : String)
  | arr (items : List JValue)
  | obj (fields : List (String × JValue))

/-- One agent's result dictionary (results is typed dict[str, dict] in the
source). -/
abbrev AgentData := List (String × JValue)

/-- First-match association lookup, the semantics of a Python dict read (keys
are unique in every dict the source builds). -/
def alookup {α : Type} : List (String × α) → String → Option α
  | [], _ => none
  | (k, v) :: rest, key => if k = key then some v else alookup rest key

/-- d.get(key, default). -/
def alookupD (d : AgentData) (key : String) (dflt : JValue) : JValue :=
  (alookup d key).getD dflt

/-- d.get(key, empty dict) followed by use of the result as a dict: a missing
key yields the empty dict, a dict value yields its fields, and any other value
makes the subsequent attribute access raise (modelled as none). -/
def pyGetObj (d : AgentData) (key : String) : Option AgentData :=
  match alookup d key with
  | none => some []
  | some (.obj fields) => some fields
  | some _ => none

/-- Python iteration over a value: lists yield their items, strings their
one-character substrings, dicts their keys; anything else raises (none). -/
def iterItems : JValue → Option (List JValue)
  | .arr items => some items
  | .str s => some (s.toList.map (fun c => JValue.str c.toString))
  | .obj fields => some (fields.map (fun kv => JValue.str kv.1))
  | _ => none

/-- isinstance(v, (int, float)) together with the numeric value used by the
comparison; Python booleans are integers 0 and 1. -/
def asNumber : JValue → Option ℚ
  | .num q => some q
  | .jbool b => some (if b then 1 else 0)
  | _ => none

/-- The warnings _detect_conflicts can emit, with the data each message
interpolates (the literal message strings of the source carry exactly the
agent name, the risk value, or the confidence). -/
inductive Conflict where
  | affordRisk
  | affordUncertain
  | highRisk (agent : String) (risk : JValue)
  | lowConf (agent : String) (confidence : ℚ)

/-- The affordability part of _detect_conflicts: read
results.get("financial", empty).get("plan", empty).get("travel_affordability_check", empty)
and emit one warning for status "likely_not_ok" or "uncertain". -/
def affordConflict (results : List (String × AgentData)) : Option (List Conflict) :=
  match pyGetObj ((alookup results "financial").getD []) "plan" with
  | none => none
  | some plan =>
      match pyGetObj plan "travel_affordability_check" with
      | none => none
      | some afford =>
          some (match alookup afford "status" with
            | some (.str s) =>
                if s = "likely_not_ok" then [Conflict.affordRisk]
                else if s = "uncertain" then [Conflict.affordUncertain]
                else []
            | _ => [])

/-- The body of the high-risk loop for one agent: one warning per risk entry
that is a dict whose severity is the string "high", carrying
risk.get("risk", "unknown"). -/
def riskConflictsOf (agent : String) (items : List JValue) : List Conflict :=
  items.filterMap (fun it =>
    match it with
    | .obj fields =>
        match alookup fields "severity" with
        | some (.str s) =>
            if s = "high"
            then some (Conflict.highRisk agent (alookupD fields "risk" (.str "unknown")))
            else none
        | _ => none
    | _ => none)

/-- The high-risk loop over all agents, in results order; iterating a
non-iterable risks value raises (none). -/
def riskConflictsAll : List (String × AgentData) → Option (List Conflict)
  | [] => some []
  | nd :: rest =>
      match iterItems (alookupD nd.2 "risks" (.arr [])) with
      | none => none
      | some items =>
          match riskConflictsAll rest with
          | none => none
          | some more => some (riskConflictsOf nd.1 items ++ more)

/-- The low-confidence loop: conf = data.get("confidence", 1.0); warn when conf
is a number strictly below 0.4. -/
def lowConfConflictsOf (results : List (String × AgentData)) : List Conflict :=
  results.filterMap (fun nd =>
    match asNumber (alookupD nd.2 "confidence" (.num 1)) with
    | some q => if q < mkRat 2 5 then some (Conflict.lowConf nd.1 q) else none
    | none => none)

/-- The function _detect_conflicts of src/agents/orchestrator.py: affordability warnings,
then high-risk warnings, then low-confidence warnings, in that order; none
models a raised runtime error. -/
def _detect_conflicts (results : List (String × AgentData)) : Option (List Conflict) :=
  match affordConflict results with
  | none => none
  | some affordPart =>
      match riskConflictsAll results with
      | none => none
      | some riskPart => some (affordPart ++ riskPart ++ lowConfConflictsOf results)

/-- Does the conflict name the given agent as low-confidence? -/
def isLowConfFor (name : String) : Conflict → Bool
  | .lowConf n _ => n == name
  | _ => false

/-- Does a results entry qualify for a low-confidence warning for the given
agent name? -/
def lowConfQualifies (name : String) (nd : String × AgentData) : Bool :=
  nd.1 == name &&
    match asNumber (alookupD nd.2 "confidence" (.num 1)) with
    | some q => decide (q < mkRat 2 5)
    | none => false

/-! The agent fan-out of orchestrate (stages 3 to 5 of
src/agents/orchestrator.py).  The behaviour of run_agent for each agent in this
orchestration call is an argument: Except.error models a raised exception. -/

/-- The slot substituted for a failing fan-out agent. -/
def errorPlaceholder (msg : String) : AgentData :=
  [("error", JValue.str msg), ("confidence", JValue.num 0)]

/-- What orchestrate emits of the stages the claims are about. -/
structure PipelineOut where
  active_agents : List String
  results : List (String × AgentData)
  conflicts : List Conflict

/-- The concurrent fan-out of stage 4: the financial and health tasks are
created in that order (when active) and gathered with return_exceptions=True,
so a failing task contributes the error placeholder to its own slot while the
sibling's outcome is recorded unchanged. -/
def fanResults (behave : String → Except String AgentData) (active : List String) :
    List (String × AgentData) :=
  ((if "financial" ∈ active then ["financial"] else []) ++
   (if "health" ∈ active then ["health"] else [])).map (fun n =>
    (n, match behave n with
        | .ok v => v
        | .error e => errorPlaceholder e))

/-- Stages 0 and 3 to 5 of orchestrate: classify; run travel first, unguarded
(an exception propagates); then the concurrent fan-out of financial and
health; then conflict detection over the aggregated results (a raised
detection error propagates). -/
def orchestrate_agents (message : String) (behave : String → Except String AgentData) :
    Except String PipelineOut :=
  let active := classify_query message
  match (if "travel" ∈ active then (behave "travel").map (fun v => [("travel", v)])
         else Except.ok []) with
  | .error e => .error e
  | .ok travelSlot =>
      match _detect_conflicts (travelSlot ++ fanResults behave active) with
      | none => .error "conflict detection raised"
      | some conflicts => .ok ⟨active, travelSlot ++ fanResults behave active, conflicts⟩

/-! Theorems.  Helper lemmas come first; each claim then gets exactly one
theorem (with a witness or counterexample where called for). -/

/-- Case analysis of the post-scoring assembly: the output is non-empty,
duplicate-free, and either equals the table order travel, health, financial
restricted to its own members, or is the fallback list. -/
theorem assembleAgents_shape (t h f : Nat) :
    assembleAgents t h f ≠ [] ∧ (assembleAgents t h f).Nodup ∧
    (assembleAgents t h f =
        ["travel", "health", "financial"].filter (fun a => a ∈ assembleAgents t h f) ∨
      assembleAgents t h f = ["travel", "financial", "health"]) := by
  by_cases ht : 1 ≤ t <;> by_cases hh : 1 ≤ h <;> by_cases hf : 1 ≤ f <;>
    simp only [assembleAgents, ht, hh, hf, if_true, if_false, reduceIte] <;> decide

/-- Coupling of the assembly step: whenever travel is in the output, financial
is too. -/
theorem assembleAgents_coupling (t h f : Nat) :
    "travel" ∈ assembleAgents t h f → "financial" ∈ assembleAgents t h f := by
  by_cases ht : 1 ≤ t <;> by_cases hh : 1 ≤ h <;> by_cases hf : 1 ≤ f <;>
    simp only [assembleAgents, ht, hh, hf, if_true, if_false, reduceIte] <;> decide

/-- The assembly step only ever emits the three known agent names. -/
theorem assembleAgents_mem (t h f : Nat) (a : String) (ha : a ∈ assembleAgents t h f) :
    a = "travel" ∨ a = "financial" ∨ a = "health" := by
  revert ha
  by_cases ht : 1 ≤ t <;> by_cases hh : 1 ≤ h <;> by_cases hf : 1 ≤ f <;>
    simp only [assembleAgents, ht, hh, hf, if_true, if_false, reduceIte] <;>
    intro ha <;> simp at ha <;> tauto

/-- Claim C1 (amended): for every message m, classify_query m is a non-empty
list with no duplicate agent names, and its order is the priority order
travel, health, financial restricted to the active members (so health precedes
financial whenever both appear), except that the no-match fallback emits
exactly the list travel, financial, health. -/
theorem classify_query_canonical_order (m : String) :
    classify_query m ≠ [] ∧ (classify_query m).Nodup ∧
    (classify_query m =
        ["travel", "health", "financial"].filter (fun a => a ∈ classify_query m) ∨
      classify_query m = ["travel", "financial", "health"]) := by
  unfold classify_query
  exact assembleAgents_shape _ _ _

/-- Witness for C1 at the message "plan a trip": the order property evaluated
at a concrete input. -/
theorem classify_query_canonical_order_witness :
    classify_query "plan a trip" ≠ [] ∧ (classify_query "plan a trip").Nodup ∧
    (classify_query "plan a trip" =
        ["travel", "health", "financial"].filter (fun a => a ∈ classify_query "plan a trip") ∨
      classify_query "plan a trip" = ["travel", "financial", "health"]) :=
  classify_query_canonical_order "plan a trip"

/-- Counterexample to claim C1 as stated: on "health budget" both health and
financial are active and the code returns them with health first, so the
output is not the claimed order travel, financial, health restricted to the
active members. -/
theorem classify_query_canonical_order_counterexample :
    classify_query "health budget" = ["health", "financial"] ∧
    classify_query "health budget" ≠
      ["travel", "financial", "health"].filter (fun a => a ∈ classify_query "health budget") := by
  constructor <;> decide

/-- Claim C2: whenever travel is among the classified agents, financial is
too (the coupling rule of classify_query). -/
theorem classify_query_travel_implies_financial (m : String)
    (h : "travel" ∈ classify_query m) : "financial" ∈ classify_query m := by
  unfold classify_query at h ⊢
  exact assembleAgents_coupling _ _ _ h

/-- Witness for C2 at the message "plan a trip". -/
theorem classify_query_travel_implies_financial_witness :
    "travel" ∈ classify_query "plan a trip" ∧ "financial" ∈ classify_query "plan a trip" :=
  ⟨by decide, classify_query_travel_implies_financial "plan a trip" (by decide)⟩

/-- Claim C8: when no travel, health or finance pattern matches the lower-cased
message, classify_query returns exactly travel, financial, health. -/
theorem classify_query_fallback (m : String)
    (ht : ∀ p ∈ _TRAVEL_PATTERNS, reSearch p (lowerChars m) = false)
    (hh : ∀ p ∈ _HEALTH_PATTERNS, reSearch p (lowerChars m) = false)
    (hf : ∀ p ∈ _FINANCE_PATTERNS, reSearch p (lowerChars m) = false) :
    classify_query m = ["travel", "financial", "health"] := by
  have h1 : _TRAVEL_PATTERNS.countP (fun p => reSearch p (lowerChars m)) = 0 :=
    List.countP_eq_zero.mpr (fun p hp => by simp [ht p hp])
  have h2 : _HEALTH_PATTERNS.countP (fun p => reSearch p (lowerChars m)) = 0 :=
    List.countP_eq_zero.mpr (fun p hp => by simp [hh p hp])
  have h3 : _FINANCE_PATTERNS.countP (fun p => reSearch p (lowerChars m)) = 0 :=
    List.countP_eq_zero.mpr (fun p hp => by simp [hf p hp])
  unfold classify_query
  dsimp only
  rw [h1, h2, h3]
  decide

/-- Witness for C8 at the message "hello there", which matches none of the 69
patterns. -/
theorem classify_query_fallback_witness :
    classify_query "hello there" = ["travel", "financial", "health"] :=
  classify_query_fallback "hello there" (by decide) (by decide) (by decide)

/-- With enough fuel, the windows of chunksOfAux concatenate back to the
input. -/
theorem chunksOfAux_flatten (f : Nat) :
    ∀ l : List Char, l.length ≤ f → (chunksOfAux f l).flatten = l := by
  induction f with
  | zero =>
      intro l h
      have : l = [] := List.length_eq_zero.mp (Nat.le_zero.mp h)
      subst this
      rfl
  | succ f ih =>
      intro l h
      cases l with
      | nil => rfl
      | cons c cs =>
          simp only [chunksOfAux, List.flatten_cons]
          rw [ih ((c :: cs).drop 900) (by simp only [List.length_drop, List.length_cons] at *; omega)]
          exact List.take_append_drop 900 (c :: cs)

/-- With enough fuel, every window of chunksOfAux is non-empty and holds at
most 900 characters. -/
theorem chunksOfAux_window_length (f : Nat) :
    ∀ l : List Char, ∀ ch ∈ chunksOfAux f l, 0 < ch.length ∧ ch.length ≤ 900 := by
  induction f with
  | zero => intro l ch hch; simp [chunksOfAux] at hch
  | succ f ih =>
      intro l ch hch
      cases l with
      | nil => simp [chunksOfAux] at hch
      | cons c cs =>
          simp only [chunksOfAux, List.mem_cons] at hch
          rcases hch with h | h
          · subst h
            constructor
            · simp [List.length_take]
            · simp [List.length_take]
          · exact ih _ ch h

/-- Claim C3 (amended): _chunk_text normalizes the text (strip each line, drop
blank lines, join with single newlines; interior whitespace runs are kept),
then cuts the normalized text into contiguous non-overlapping windows of at
most 900 characters whose concatenation is exactly the normalized text, and an
empty or all-blank text yields zero windows. -/
theorem chunk_text_windows (text : List Char) :
    (_chunk_text text).flatten = normalizeText text ∧
    (∀ ch ∈ _chunk_text text, 0 < ch.length ∧ ch.length ≤ 900) ∧
    (normalizeText text = [] ↔ _chunk_text text = []) := by
  refine ⟨chunksOfAux_flatten _ _ le_rfl, fun ch hch => chunksOfAux_window_length _ _ ch hch, ?_, ?_⟩
  · intro h
    unfold _chunk_text
    rw [h]
    rfl
  · intro h
    unfold _chunk_text at h
    rcases hn : normalizeText text with _ | ⟨c, cs⟩
    · rfl
    · rw [hn] at h
      simp [chunksOfAux] at h

/-- Witness for C3 at a concrete two-line text with trailing blanks. -/
theorem chunk_text_windows_witness :
    (_chunk_text ("  alpha \n\n beta ".toList)).flatten = normalizeText ("  alpha \n\n beta ".toList) ∧
    (∀ ch ∈ _chunk_text ("  alpha \n\n beta ".toList), 0 < ch.length ∧ ch.length ≤ 900) ∧
    (normalizeText ("  alpha \n\n beta ".toList) = [] ↔ _chunk_text ("  alpha \n\n beta ".toList) = []) :=
  chunk_text_windows ("  alpha \n\n beta ".toList)

/-- Counterexample to claim C3 as stated: on the text a-space-space-b the code
does not collapse the interior whitespace run, so the concatenation of its
windows differs from the claimed run-collapsing normalization. -/
theorem chunk_text_counterexample :
    (_chunk_text ("a  b".toList)).flatten ≠ collapseWsSpec ("a  b".toList) ∧
    (_chunk_text ("a  b".toList)).flatten = "a  b".toList := by
  constructor <;> decide

/-- Both sorted(..., reverse=True) calls produce a list sorted by descending
score. -/
theorem sortByScoreDesc_sorted (l : List RankedChunk) :
    List.Sorted scoreGe (sortByScoreDesc l) :=
  List.sorted_insertionSort scoreGe l

/-- A prefix of a descending list is descending. -/
theorem sorted_take_scoreGe {l : List RankedChunk} (h : List.Sorted scoreGe l) (n : Nat) :
    List.Sorted scoreGe (l.take n) :=
  List.Pairwise.sublist (List.take_sublist n l) h

/-- The rerank step always truncates to top_k. -/
theorem cross_encoder_rerank_length (score : List Char → ℚ) (cross_ok : Bool)
    (candidates : List RankedChunk) (top_k : Nat) :
    (_cross_encoder_rerank score cross_ok candidates top_k).length ≤ top_k := by
  unfold _cross_encoder_rerank
  split <;> exact List.length_take_le _ _

/-- The rerank step keeps its output sorted by descending score, as long as
its fallback input already was. -/
theorem cross_encoder_rerank_sorted (score : List Char → ℚ) (cross_ok : Bool)
    (candidates : List RankedChunk) (top_k : Nat) (h : List.Sorted scoreGe candidates) :
    List.Sorted scoreGe (_cross_encoder_rerank score cross_ok candidates top_k) := by
  unfold _cross_encoder_rerank
  split
  · exact sorted_take_scoreGe (sortByScoreDesc_sorted _) _
  · exact sorted_take_scoreGe h _

/-- Claim C4: rank_chunks returns at most top_k chunks with non-increasing
scores, and returns the empty list when the document list is empty or no
document yields a window.  The two model scorers and the query enter through
the opaque scoring functions. -/
theorem rank_chunks_spec (bi_ok cross_ok : Bool) (biScore tfScore crossScore : List Char → ℚ)
    (docs : List Document) (top_k : Nat) :
    (rank_chunks bi_ok cross_ok biScore tfScore crossScore docs top_k).length ≤ top_k ∧
    List.Chain' (fun a b => b.score ≤ a.score)
      (rank_chunks bi_ok cross_ok biScore tfScore crossScore docs top_k) ∧
    (docs = [] → rank_chunks bi_ok cross_ok biScore tfScore crossScore docs top_k = []) ∧
    ((∀ d ∈ docs, _chunk_text d.text = []) →
      rank_chunks bi_ok cross_ok biScore tfScore crossScore docs top_k = []) := by
  by_cases hempty :
      (docs.flatMap (fun d => (_chunk_text d.text).map (fun ch => (d.url, d.title, ch)))).isEmpty = true
  · simp only [rank_chunks, hempty, if_true]
    exact ⟨Nat.zero_le _, List.chain'_nil, by simp, by simp⟩
  · simp only [rank_chunks, hempty, if_false, Bool.false_eq_true]
    have hcand : List.Sorted scoreGe
        (if bi_ok then
          _bi_encoder_rank biScore
            (docs.flatMap (fun d => (_chunk_text d.text).map (fun ch => (d.url, d.title, ch))))
            (min (docs.flatMap (fun d => (_chunk_text d.text).map (fun ch => (d.url, d.title, ch)))).length (top_k * 3))
         else
          _tfidf_rank tfScore
            (docs.flatMap (fun d => (_chunk_text d.text).map (fun ch => (d.url, d.title, ch))))
            (min (docs.flatMap (fun d => (_chunk_text d.text).map (fun ch => (d.url, d.title, ch)))).length (top_k * 3))) := by
      split
      · exact sorted_take_scoreGe (sortByScoreDesc_sorted _) _
      · exact sorted_take_scoreGe (sortByScoreDesc_sorted _) _
    refine ⟨cross_encoder_rerank_length _ _ _ _, ?_, ?_, ?_⟩
    · exact List.Pairwise.chain' (cross_encoder_rerank_sorted _ _ _ _ hcand)
    · intro h
      subst h
      simp at hempty
    · intro h
      have : docs.flatMap (fun d => (_chunk_text d.text).map (fun ch => (d.url, d.title, ch))) = [] := by
        rw [List.flatMap_eq_nil_iff]
        intro d hd
        rw [h d hd]
        rfl
      rw [this] at hempty
      simp at hempty

/-- Witness for C4 at one concrete document and scorer. -/
theorem rank_chunks_spec_witness :
    (rank_chunks true true (fun _ => 1) (fun _ => 0) (fun t => (t.length : ℚ))
        [⟨"u", none, "hello world".toList⟩] 2).length ≤ 2 ∧
    List.Chain' (fun a b => b.score ≤ a.score)
      (rank_chunks true true (fun _ => 1) (fun _ => 0) (fun t => (t.length : ℚ))
        [⟨"u", none, "hello world".toList⟩] 2) ∧
    ([⟨"u", none, "hello world".toList⟩] = ([] : List Document) →
      rank_chunks true true (fun _ => 1) (fun _ => 0) (fun t => (t.length : ℚ))
        [⟨"u", none, "hello world".toList⟩] 2 = []) ∧
    ((∀ d ∈ [(⟨"u", none, "hello world".toList⟩ : Document)], _chunk_text d.text = []) →
      rank_chunks true true (fun _ => 1) (fun _ => 0) (fun t => (t.length : ℚ))
        [⟨"u", none, "hello world".toList⟩] 2 = []) :=
  rank_chunks_spec true true (fun _ => 1) (fun _ => 0) (fun t => (t.length : ℚ))
    [⟨"u", none, "hello world".toList⟩] 2

/-- Claim C5: when the cross-encoder is unavailable or raises (the except
branch of the source), the rerank step returns the stage-2 candidates in their
incoming order truncated to top_k; the embedded rerank step is total, so the
ranking pipeline never propagates an exception. -/
theorem cross_encoder_rerank_fallback (crossScore : List Char → ℚ)
    (candidates : List RankedChunk) (top_k : Nat) :
    _cross_encoder_rerank crossScore false candidates top_k = candidates.take top_k := by
  rfl

/-- The Boolean presence test of insertChunk agrees with membership of the url
among the accumulator's urls. -/
theorem insertChunk_cond (acc : List EvidenceItem) (ch : RankedChunk) :
    (acc.any (fun it => it.url == ch.url)) = true ↔ ch.url ∈ acc.map (fun it => it.url) := by
  simp only [List.any_eq_true, beq_iff_eq, List.mem_map]

/-- Invariant of the _to_evidence loop: urls stay pairwise distinct, and every
emitted item's snippets are the first six texts, in order, of the chunks for
its url — counting what the accumulator already holds. -/
theorem toEvidenceAux_invariant (rest : List RankedChunk) :
    ∀ acc : List EvidenceItem,
      (acc.map (fun it => it.url)).Nodup →
      (∀ it ∈ acc, it.snippets.length ≤ 6) →
      ((toEvidenceAux acc rest).map (fun it => it.url)).Nodup ∧
      ∀ it ∈ toEvidenceAux acc rest,
        (∃ a ∈ acc, it.url = a.url ∧
            it.snippets =
              (a.snippets ++ (rest.filter (fun c => c.url = a.url)).map (fun c => c.text)).take 6) ∨
        (it.url ∉ acc.map (fun it => it.url) ∧
            it.snippets = ((rest.filter (fun c => c.url = it.url)).map (fun c => c.text)).take 6) := by
  induction rest with
  | nil =>
      intro acc hnd hlen
      refine ⟨hnd, fun it hit => Or.inl ⟨it, hit, rfl, ?_⟩⟩
      simp [List.take_of_length_le (hlen it hit)]
  | cons ch rest ih =>
      intro acc hnd hlen
      by_cases hmem : ch.url ∈ acc.map (fun it => it.url)
      · -- the url is already stored: the conditional map updates its item
        have hins : insertChunk acc ch = acc.map (fun it =>
            if it.url = ch.url ∧ it.snippets.length < 6
            then { it with snippets := it.snippets ++ [ch.text] } else it) := by
          unfold insertChunk
          rw [if_pos ((insertChunk_cond acc ch).mpr hmem)]
        have hurl : ((insertChunk acc ch).map (fun it => it.url)) = acc.map (fun it => it.url) := by
          rw [hins, List.map_map]
          apply List.map_congr_left
          intro a _
          dsimp only [Function.comp]
          split <;> rfl
        have hlen' : ∀ it ∈ insertChunk acc ch, it.snippets.length ≤ 6 := by
          rw [hins]
          intro it hit
          rw [List.mem_map] at hit
          obtain ⟨a, ha, hupd⟩ := hit
          subst hupd
          split
          · next hcond =>
              simp only [List.length_append, List.length_cons, List.length_nil]
              omega
          · exact hlen a ha
        obtain ⟨hndr, hspec⟩ := ih (insertChunk acc ch) (by rw [hurl]; exact hnd) hlen'
        refine ⟨hndr, fun it hit => ?_⟩
        rcases hspec it hit with ⟨a', ha', hurl_eq, hsnip⟩ | ⟨hnotin, hsnip⟩
        · rw [hins, List.mem_map] at ha'
          obtain ⟨a, ha, hupd⟩ := ha'
          by_cases hcase : a.url = ch.url
          · by_cases hlt : a.snippets.length < 6
            · have hupd' : a' = { a with snippets := a.snippets ++ [ch.text] } := by
                rw [← hupd, if_pos ⟨hcase, hlt⟩]
              left
              refine ⟨a, ha, by rw [hurl_eq, hupd'], ?_⟩
              rw [hsnip, hupd']
              have hfil : (ch :: rest).filter (fun c => c.url = a.url) =
                  ch :: rest.filter (fun c => c.url = a.url) := by
                simp [List.filter_cons, hcase]
              rw [hfil]
              simp [List.append_assoc]
            · have h1 := hlen a ha
              have h6 : a.snippets.length = 6 := by omega
              have hupd' : a' = a := by
                rw [← hupd, if_neg]
                rintro ⟨_, hl⟩
                exact hlt hl
              left
              refine ⟨a, ha, by rw [hurl_eq, hupd'], ?_⟩
              rw [hsnip, hupd']
              have w : ∀ X : List (List Char), (a.snippets ++ X).take 6 = a.snippets := by
                intro X
                rw [List.take_append_eq_append_take, h6]
                simp [List.take_of_length_le (le_of_eq h6)]
              rw [w, w]
          · have hupd' : a' = a := by
              rw [← hupd, if_neg]
              rintro ⟨hu, _⟩
              exact hcase hu
            left
            refine ⟨a, ha, by rw [hurl_eq, hupd'], ?_⟩
            rw [hsnip, hupd']
            have hfil : (ch :: rest).filter (fun c => c.url = a.url) =
                rest.filter (fun c => c.url = a.url) := by
              simp [List.filter_cons, Ne.symm hcase]
            rw [hfil]
        · rw [hurl] at hnotin
          right
          refine ⟨hnotin, ?_⟩
          rw [hsnip]
          have hne : ch.url ≠ it.url := fun h => hnotin (h ▸ hmem)
          have hfil : (ch :: rest).filter (fun c => c.url = it.url) =
              rest.filter (fun c => c.url = it.url) := by
            simp [List.filter_cons, hne]
          rw [hfil]
      · -- the url is new: the item is appended at the back
        have hins : insertChunk acc ch =
            acc ++ [{ url := ch.url, title := ch.title, snippets := [ch.text] }] := by
          unfold insertChunk
          rw [if_neg]
          intro hc
          exact hmem ((insertChunk_cond acc ch).mp hc)
        have hurl : (insertChunk acc ch).map (fun it => it.url) =
            acc.map (fun it => it.url) ++ [ch.url] := by
          rw [hins]
          simp
        have hnd' : ((insertChunk acc ch).map (fun it => it.url)).Nodup := by
          rw [hurl]
          simp [List.nodup_append, hnd, hmem]
        have hlen' : ∀ it ∈ insertChunk acc ch, it.snippets.length ≤ 6 := by
          rw [hins]
          intro it hit
          rcases List.mem_append.mp hit with h | h
          · exact hlen it h
          · simp at h
            subst h
            simp
        obtain ⟨hndr, hspec⟩ := ih _ hnd' hlen'
        refine ⟨hndr, fun it hit => ?_⟩
        rcases hspec it hit with ⟨a', ha', hurl_eq, hsnip⟩ | ⟨hnotin, hsnip⟩
        · rw [hins] at ha'
          rcases List.mem_append.mp ha' with hain | hnew
          · have hne : a'.url ≠ ch.url :=
              fun h => hmem (h ▸ List.mem_map_of_mem (fun x => x.url) hain)
            left
            refine ⟨a', hain, hurl_eq, ?_⟩
            rw [hsnip]
            have hfil : (ch :: rest).filter (fun c => c.url = a'.url) =
                rest.filter (fun c => c.url = a'.url) := by
              simp [List.filter_cons, Ne.symm hne]
            rw [hfil]
          · simp only [List.mem_singleton] at hnew
            right
            constructor
            · rw [hurl_eq, hnew]
              exact hmem
            · rw [hsnip, hnew, hurl_eq, hnew]
              have hfil : (ch :: rest).filter (fun c => c.url = ch.url) =
                  ch :: rest.filter (fun c => c.url = ch.url) := by
                simp [List.filter_cons]
              rw [hfil]
              simp
        · rw [hurl, List.mem_append] at hnotin
          push_neg at hnotin
          obtain ⟨hn1, hn2⟩ := hnotin
          right
          refine ⟨hn1, ?_⟩
          rw [hsnip]
          simp only [List.mem_singleton] at hn2
          have hne : ch.url ≠ it.url := fun h => hn2 h.symm
          have hfil : (ch :: rest).filter (fun c => c.url = it.url) =
              rest.filter (fun c => c.url = it.url) := by
            simp [List.filter_cons, hne]
          rw [hfil]

/-- Claim C9: evidence grouping yields pairwise-distinct urls, and every item
carries, in chunk order, at most the first six texts of the chunks with its
url. -/
theorem to_evidence_spec (chunks : List RankedChunk) :
    ((_to_evidence chunks).map (fun it => it.url)).Nodup ∧
    ∀ it ∈ _to_evidence chunks,
      it.snippets = ((chunks.filter (fun c => c.url = it.url)).map (fun c => c.text)).take 6 ∧
      it.snippets.length ≤ 6 := by
  obtain ⟨hnd, hspec⟩ := toEvidenceAux_invariant chunks [] (by simp) (by simp)
  refine ⟨hnd, fun it hit => ?_⟩
  rcases hspec it hit with ⟨a, ha, _⟩ | ⟨_, hsnip⟩
  · simp at ha
  · exact ⟨hsnip, by rw [hsnip]; exact List.length_take_le _ _⟩

/-- Witness for C9 at three chunks over two urls. -/
theorem to_evidence_spec_witness :
    ((_to_evidence [⟨"u1", none, "t1".toList, 1⟩, ⟨"u2", none, "t2".toList, 2⟩,
        ⟨"u1", none, "t3".toList, 3⟩]).map (fun it => it.url)).Nodup ∧
    (⟨"u1", none, ["t1".toList, "t3".toList]⟩ : EvidenceItem).snippets =
      ((([⟨"u1", none, "t1".toList, 1⟩, ⟨"u2", none, "t2".toList, 2⟩,
          ⟨"u1", none, "t3".toList, 3⟩] : List RankedChunk).filter
            (fun c => c.url = (⟨"u1", none, ["t1".toList, "t3".toList]⟩ : EvidenceItem).url)).map
          (fun c => c.text)).take 6 := by
  have H := to_evidence_spec [⟨"u1", none, "t1".toList, 1⟩, ⟨"u2", none, "t2".toList, 2⟩,
    ⟨"u1", none, "t3".toList, 3⟩]
  exact ⟨H.1, (H.2 ⟨"u1", none, ["t1".toList, "t3".toList]⟩ (by decide)).1⟩

/-- The high-risk warnings of one agent contain no low-confidence warning. -/
theorem riskConflictsOf_no_lowconf (name agent : String) (items : List JValue) :
    (riskConflictsOf agent items).countP (isLowConfFor name) = 0 := by
  rw [List.countP_eq_zero]
  intro c hc
  rw [riskConflictsOf, List.mem_filterMap] at hc
  obtain ⟨it, _, hit⟩ := hc
  split at hit
  · split at hit
    · split at hit
      · obtain rfl := Option.some.inj hit
        simp [isLowConfFor]
      · exact Option.noConfusion hit
    · exact Option.noConfusion hit
  · exact Option.noConfusion hit

/-- The whole high-risk loop contains no low-confidence warning. -/
theorem riskConflictsAll_no_lowconf (name : String) :
    ∀ (results : List (String × AgentData)) (l : List Conflict),
      riskConflictsAll results = some l → l.countP (isLowConfFor name) = 0 := by
  intro results
  induction results with
  | nil =>
      intro l h
      obtain rfl := Option.some.inj h
      rfl
  | cons nd rest ih =>
      intro l h
      rw [riskConflictsAll] at h
      rcases hit : iterItems (alookupD nd.2 "risks" (.arr [])) with _ | items
      · rw [hit] at h
        exact (Option.noConfusion h)
      · rw [hit] at h
        rcases hrec : riskConflictsAll rest with _ | more
        · rw [hrec] at h
          exact (Option.noConfusion h)
        · rw [hrec] at h
          obtain rfl := Option.some.inj h
          rw [List.countP_append, riskConflictsOf_no_lowconf, ih more hrec]

/-- The affordability part contains no low-confidence warning. -/
theorem affordConflict_no_lowconf (name : String) (results : List (String × AgentData))
    (l : List Conflict) (h : affordConflict results = some l) :
    l.countP (isLowConfFor name) = 0 := by
  rw [affordConflict] at h
  rcases hp : pyGetObj ((alookup results "financial").getD []) "plan" with _ | plan
  · rw [hp] at h
    exact (Option.noConfusion h)
  · rw [hp] at h
    dsimp only at h
    rcases ha : pyGetObj plan "travel_affordability_check" with _ | afford
    · rw [ha] at h
      exact (Option.noConfusion h)
    · rw [ha] at h
      obtain rfl := Option.some.inj h
      split
      · split
        · simp [isLowConfFor]
        · split
          · simp [isLowConfFor]
          · rfl
      · rfl

/-- The low-confidence loop emits exactly one warning per qualifying entry of
the results map. -/
theorem lowConfConflictsOf_countP (name : String) (results : List (String × AgentData)) :
    (lowConfConflictsOf results).countP (isLowConfFor name) =
      results.countP (lowConfQualifies name) := by
  induction results with
  | nil => rfl
  | cons nd rest ih =>
      have hstep : lowConfConflictsOf (nd :: rest) =
          (match asNumber (alookupD nd.2 "confidence" (.num 1)) with
            | some q => if q < mkRat 2 5 then some (Conflict.lowConf nd.1 q) else none
            | none => none).toList ++ lowConfConflictsOf rest := by
        rw [lowConfConflictsOf, List.filterMap_cons]
        rcases hq : asNumber (alookupD nd.2 "confidence" (.num 1)) with _ | q
        · simp [hq, lowConfConflictsOf]
        · by_cases hlt : q < mkRat 2 5 <;> simp [hq, hlt, lowConfConflictsOf]
      rw [hstep, List.countP_append, List.countP_cons, ih]
      rcases hq : asNumber (alookupD nd.2 "confidence" (.num 1)) with _ | q
      · simp [hq, lowConfQualifies]
      · by_cases hlt : q < mkRat 2 5
        · by_cases hn : nd.1 == name <;>
            simp [hq, hlt, lowConfQualifies, isLowConfFor, hn, Nat.add_comm]
        · simp [hq, hlt, lowConfQualifies]

/-- Claim C7: whenever conflict detection completes, it emits exactly one
low-confidence warning, tagged with the agent's name, for each entry of the
results map whose confidence is a number strictly below 0.4 (a missing
confidence field defaults to 1.0 and never qualifies), and the empty results
map yields the empty conflict list. -/
theorem detect_conflicts_lowconf_spec :
    _detect_conflicts [] = some [] ∧
    ∀ (results : List (String × AgentData)) (cs : List Conflict),
      _detect_conflicts results = some cs → ∀ name : String,
        cs.countP (isLowConfFor name) = results.countP (lowConfQualifies name) := by
  constructor
  · rfl
  · intro results cs h name
    rw [_detect_conflicts] at h
    rcases ha : affordConflict results with _ | a
    · rw [ha] at h
      exact Option.noConfusion h
    · rw [ha] at h
      dsimp only at h
      rcases hb : riskConflictsAll results with _ | b
      · rw [hb] at h
        exact Option.noConfusion h
      · rw [hb] at h
        obtain rfl := Option.some.inj h
        rw [List.countP_append, List.countP_append,
          affordConflict_no_lowconf name results a ha,
          riskConflictsAll_no_lowconf name results b hb,
          lowConfConflictsOf_countP]
        simp

/-- Witness for C7: one low-confidence agent at confidence 0.2 and one agent
without a confidence field. -/
theorem detect_conflicts_lowconf_spec_witness :
    List.countP (isLowConfFor "health") [Conflict.lowConf "health" (mkRat 1 5)] =
      List.countP (lowConfQualifies "health")
        [("health", [("confidence", JValue.num (mkRat 1 5))]), ("travel", ([] : AgentData))] :=
  detect_conflicts_lowconf_spec.2
    [("health", [("confidence", JValue.num (mkRat 1 5))]), ("travel", [])]
    [Conflict.lowConf "health" (mkRat 1 5)] (by rfl) "health"

/-- The classifier only ever emits the three known agent names. -/
theorem classify_query_mem (m a : String) (ha : a ∈ classify_query m) :
    a = "travel" ∨ a = "financial" ∨ a = "health" := by
  unfold classify_query at ha
  exact assembleAgents_mem _ _ _ a ha

/-- Association lookup skips a prefix in which the key is absent. -/
theorem alookup_append_of_none {α : Type} {l1 : List (String × α)} (l2 : List (String × α))
    {k : String} (h : alookup l1 k = none) : alookup (l1 ++ l2) k = alookup l2 k := by
  induction l1 with
  | nil => rfl
  | cons p rest ih =>
      obtain ⟨pk, pv⟩ := p
      rw [alookup] at h
      by_cases hk : pk = k
      · rw [if_pos hk] at h
        exact Option.noConfusion h
      · rw [if_neg hk] at h
        rw [List.cons_append, alookup, if_neg hk]
        exact ih h

/-- Association lookup finds in the prefix what the prefix already holds. -/
theorem alookup_append_of_some {α : Type} {l1 : List (String × α)} (l2 : List (String × α))
    {k : String} {v : α} (h : alookup l1 k = some v) : alookup (l1 ++ l2) k = some v := by
  induction l1 with
  | nil => exact Option.noConfusion h
  | cons p rest ih =>
      obtain ⟨pk, pv⟩ := p
      rw [alookup] at h
      by_cases hk : pk = k
      · rw [if_pos hk] at h
        rw [List.cons_append, alookup, if_pos hk]
        exact h
      · rw [if_neg hk] at h
        rw [List.cons_append, alookup, if_neg hk]
        exact ih h

/-- Looking a member name up in the tabulation of a function over a name list
yields that function's value (the first matching slot). -/
theorem alookup_map_eq {α : Type} (g : String → α) :
    ∀ (names : List String) (x : String), x ∈ names →
      alookup (names.map (fun n => (n, g n))) x = some (g x) := by
  intro names
  induction names with
  | nil => intro x hx; simp at hx
  | cons n rest ih =>
      intro x hx
      by_cases hn : n = x
      · subst hn
        simp [alookup]
      · rcases List.mem_cons.mp hx with h | h
        · exact absurd h.symm hn
        · rw [List.map_cons, alookup, if_neg hn]
          exact ih x h

/-- Looking up an active fan-out agent in the fan-out results yields its own
outcome: the agent's value on success, the error placeholder on failure. -/
theorem alookup_fanResults (behave : String → Except String AgentData) (active : List String)
    (x : String) (hx : x = "financial" ∨ x = "health") (hxa : x ∈ active) :
    alookup (fanResults behave active) x =
      some (match behave x with
            | .ok v => v
            | .error e => errorPlaceholder e) := by
  rw [fanResults]
  rcases hx with rfl | rfl
  · exact alookup_map_eq _ _ _ (by simp [hxa])
  · exact alookup_map_eq _ _ _ (by simp [hxa])

/-- Destructuring of a successful orchestration: the active agents are the
classifier's output, the results map is the travel slot (present exactly when
travel is active, holding travel's successful value) followed by the fan-out
results, and the conflicts are a successful conflict detection over that
map. -/
theorem orchestrate_agents_ok_destruct (message : String)
    (behave : String → Except String AgentData) (out : PipelineOut)
    (hrun : orchestrate_agents message behave = .ok out) :
    out.active_agents = classify_query message ∧
    (∃ travelSlot : List (String × AgentData),
      (("travel" ∈ classify_query message ∧
          ∃ tv, behave "travel" = .ok tv ∧ travelSlot = [("travel", tv)]) ∨
        ("travel" ∉ classify_query message ∧ travelSlot = [])) ∧
      out.results = travelSlot ++ fanResults behave (classify_query message)) ∧
    _detect_conflicts out.results = some out.conflicts := by
  unfold orchestrate_agents at hrun
  dsimp only at hrun
  by_cases htr : "travel" ∈ classify_query message
  · rw [if_pos htr] at hrun
    rcases hbt : behave "travel" with et | tv
    · rw [hbt] at hrun
      exact Except.noConfusion hrun
    · rw [hbt] at hrun
      dsimp only [Except.map] at hrun
      rcases hdet : _detect_conflicts
          ([("travel", tv)] ++ fanResults behave (classify_query message)) with _ | cs
      · rw [hdet] at hrun
        exact Except.noConfusion hrun
      · rw [hdet] at hrun
        have hout := Except.ok.inj hrun
        subst hout
        exact ⟨rfl, ⟨[("travel", tv)], Or.inl ⟨htr, tv, rfl, rfl⟩, rfl⟩, hdet⟩
  · rw [if_neg htr] at hrun
    dsimp only at hrun
    rcases hdet : _detect_conflicts
        ([] ++ fanResults behave (classify_query message)) with _ | cs
    · rw [hdet] at hrun
      exact Except.noConfusion hrun
    · rw [hdet] at hrun
      have hout := Except.ok.inj hrun
      subst hout
      exact ⟨rfl, ⟨[], Or.inr ⟨htr, rfl⟩, rfl⟩, hdet⟩

/-- In either travel-slot shape, any name other than travel is absent from the
travel slot. -/
theorem travelSlot_lookup_none {travelSlot : List (String × AgentData)}
    (hts : (∃ tv, travelSlot = [("travel", tv)]) ∨ travelSlot = [])
    (x : String) (hx : x ≠ "travel") : alookup travelSlot x = none := by
  rcases hts with ⟨tv, rfl⟩ | rfl
  · rw [alookup, if_neg (Ne.symm hx)]
    rfl
  · rfl

/-- Claim C6: in the concurrent financial/health fan-out, a failing agent's
slot becomes the error placeholder with confidence 0 while its successful
sibling's slot holds the sibling's own value; the pipeline then runs conflict
detection over these results, and every active agent has a slot in the final
results map. -/
theorem orchestrate_fanout_isolation (message : String)
    (behave : String → Except String AgentData)
    (fa sib e : String) (v : AgentData) (out : PipelineOut)
    (hpair : (fa = "financial" ∧ sib = "health") ∨ (fa = "health" ∧ sib = "financial"))
    (hfa : behave fa = .error e) (hsib : behave sib = .ok v)
    (hfaActive : fa ∈ classify_query message) (hsibActive : sib ∈ classify_query message)
    (hrun : orchestrate_agents message behave = .ok out) :
    alookup out.results sib = some v ∧
    alookup out.results fa = some (errorPlaceholder e) ∧
    _detect_conflicts out.results = some out.conflicts ∧
    ∀ a ∈ out.active_agents, (alookup out.results a).isSome := by
  obtain ⟨hact, ⟨travelSlot, hts, hres⟩, hdetc⟩ :=
    orchestrate_agents_ok_destruct message behave out hrun
  have hts' : (∃ tv, travelSlot = [("travel", tv)]) ∨ travelSlot = [] := by
    rcases hts with ⟨_, tv, _, h⟩ | ⟨_, h⟩
    · exact Or.inl ⟨tv, h⟩
    · exact Or.inr h
  have hsib_or : sib = "financial" ∨ sib = "health" := by
    rcases hpair with ⟨_, h⟩ | ⟨_, h⟩
    · exact Or.inr h
    · exact Or.inl h
  have hfa_or : fa = "financial" ∨ fa = "health" := by
    rcases hpair with ⟨h, _⟩ | ⟨h, _⟩
    · exact Or.inl h
    · exact Or.inr h
  have hsib_ne : sib ≠ "travel" := by
    rcases hsib_or with rfl | rfl <;> decide
  have hfa_ne : fa ≠ "travel" := by
    rcases hfa_or with rfl | rfl <;> decide
  refine ⟨?_, ?_, hdetc, ?_⟩
  · rw [hres, alookup_append_of_none _ (travelSlot_lookup_none hts' sib hsib_ne),
      alookup_fanResults behave _ sib hsib_or hsibActive, hsib]
  · rw [hres, alookup_append_of_none _ (travelSlot_lookup_none hts' fa hfa_ne),
      alookup_fanResults behave _ fa hfa_or hfaActive, hfa]
  · intro a ha
    rw [hact] at ha
    rcases classify_query_mem message a ha with rfl | rfl | rfl
    · rcases hts with ⟨_, tv, _, hslot⟩ | ⟨htr, _⟩
      · rw [hres, hslot, alookup_append_of_some _ (v := tv) (by rw [alookup, if_pos rfl])]
        rfl
      · exact absurd ha htr
    · rw [hres, alookup_append_of_none _ (travelSlot_lookup_none hts' _ (by decide)),
        alookup_fanResults behave _ _ (Or.inl rfl) ha]
      rfl
    · rw [hres, alookup_append_of_none _ (travelSlot_lookup_none hts' _ (by decide)),
        alookup_fanResults behave _ _ (Or.inr rfl) ha]
      rfl

/-- Witness for C6: on "budget doctor" the classifier activates health and
financial, the financial agent raises, the health agent succeeds. -/
theorem orchestrate_fanout_isolation_witness :
    (alookup
        (⟨["health", "financial"],
          [("financial", errorPlaceholder "boom"), ("health", [("confidence", JValue.num 1)])],
          [Conflict.lowConf "financial" 0]⟩ : PipelineOut).results "health" =
      some [("confidence", JValue.num 1)]) ∧
    (alookup
        (⟨["health", "financial"],
          [("financial", errorPlaceholder "boom"), ("health", [("confidence", JValue.num 1)])],
          [Conflict.lowConf "financial" 0]⟩ : PipelineOut).results "financial" =
      some (errorPlaceholder "boom")) ∧
    (_detect_conflicts
        (⟨["health", "financial"],
          [("financial", errorPlaceholder "boom"), ("health", [("confidence", JValue.num 1)])],
          [Conflict.lowConf "financial" 0]⟩ : PipelineOut).results =
      some (⟨["health", "financial"],
          [("financial", errorPlaceholder "boom"), ("health", [("confidence", JValue.num 1)])],
          [Conflict.lowConf "financial" 0]⟩ : PipelineOut).conflicts) ∧
    (alookup
        (⟨["health", "financial"],
          [("financial", errorPlaceholder "boom"), ("health", [("confidence", JValue.num 1)])],
          [Conflict.lowConf "financial" 0]⟩ : PipelineOut).results "health").isSome := by
  have H := orchestrate_fanout_isolation "budget doctor"
    (fun n => if n = "financial" then .error "boom" else .ok [("confidence", JValue.num 1)])
    "financial" "health" "boom" [("confidence", JValue.num 1)]
    (⟨["health", "financial"],
      [("financial", errorPlaceholder "boom"), ("health", [("confidence", JValue.num 1)])],
      [Conflict.lowConf "financial" 0]⟩ : PipelineOut)
    (Or.inl ⟨rfl, rfl⟩) rfl rfl (by decide) (by decide) (by rfl)
  exact ⟨H.1, H.2.1, H.2.2.1, H.2.2.2 "health" (by decide)⟩

/-- Claim C10: when a fan-out agent fails and receives the error placeholder,
conflict detection necessarily emits a low-confidence warning naming that
agent, because the placeholder's confidence 0 is a number below the 0.4
threshold. -/
theorem orchestrate_failed_agent_low_confidence (message : String)
    (behave : String → Except String AgentData)
    (fa e : String) (out : PipelineOut)
    (hfa9 : fa = "financial" ∨ fa = "health")
    (hbe : behave fa = .error e)
    (hact : fa ∈ classify_query message)
    (hrun : orchestrate_agents message behave = .ok out) :
    Conflict.lowConf fa 0 ∈ out.conflicts := by
  obtain ⟨_, ⟨travelSlot, _, hres⟩, hdetc⟩ :=
    orchestrate_agents_ok_destruct message behave out hrun
  have hmemr : (fa, errorPlaceholder e) ∈ out.results := by
    rw [hres]
    apply List.mem_append_right
    rw [fanResults]
    apply List.mem_map.mpr
    refine ⟨fa, ?_, by rw [hbe]⟩
    rcases hfa9 with rfl | rfl
    · simp [hact]
    · simp [hact]
  have hlc : Conflict.lowConf fa 0 ∈ lowConfConflictsOf out.results := by
    rw [lowConfConflictsOf]
    apply List.mem_filterMap.mpr
    refine ⟨(fa, errorPlaceholder e), hmemr, ?_⟩
    have hconf : alookup (errorPlaceholder e) "confidence" = some (JValue.num 0) := by
      rw [errorPlaceholder, alookup, if_neg (by decide), alookup, if_pos rfl]
    rw [alookupD, hconf]
    dsimp only [Option.getD, asNumber]
    rw [if_pos (by decide : (0 : ℚ) < mkRat 2 5)]
  rw [_detect_conflicts] at hdetc
  rcases ha : affordConflict out.results with _ | a
  · rw [ha] at hdetc
    exact Option.noConfusion hdetc
  · rw [ha] at hdetc
    dsimp only at hdetc
    rcases hb : riskConflictsAll out.results with _ | b
    · rw [hb] at hdetc
      exact Option.noConfusion hdetc
    · rw [hb] at hdetc
      have hcs := Option.some.inj hdetc
      rw [← hcs]
      exact List.mem_append_right _ hlc

/-- Witness for C10: on "budget doctor" with a failing health agent, the
conflicts list names health as low-confidence. -/
theorem orchestrate_failed_agent_low_confidence_witness :
    Conflict.lowConf "health" 0 ∈
      (⟨["health", "financial"],
        [("financial", [("confidence", JValue.num 1)]), ("health", errorPlaceholder "down")],
        [Conflict.lowConf "health" 0]⟩ : PipelineOut).conflicts :=
  orchestrate_failed_agent_low_confidence "budget doctor"
    (fun n => if n = "health" then .error "down" else .ok [("confidence", JValue.num 1)])
    "health" "down"
    (⟨["health", "financial"],
      [("financial", [("confidence", JValue.num 1)]), ("health", errorPlaceholder "down")],
      [Conflict.lowConf "health" 0]⟩ : PipelineOut)
    (Or.inr rfl) rfl (by decide) (by rfl)

end MARS
